import Mathlib

/-!
# http_proxy: header sanitising, forwarded-for merging, CONNECT tunnelling

A shallow embedding of `http_proxy.go` together with the parts of the Go
standard library whose behaviour the program relies on
(`net/textproto.CanonicalMIMEHeaderKey`, `net/http.Header`, `strings.Join`,
`net.SplitHostPort`, `net/http.Error`).

Go strings are modelled by `String`; a Go `map[string][]string` is modelled by
an association list, the order of which stands for one possible iteration
order of the map. The handlers `connect` and `proxyHTTP` pass a `World` along:
the header map of the response writer and the list of the calls made so far.
The dialer, the transport and the outcome of `Hijack()` are parameters.
`readHeader` is the header map `net/http` builds from the fields of a
message, with every name in canonical form.
-/

set_option autoImplicit false

namespace HttpProxy

/-! ## `net/textproto`: canonical header keys -/

/-- The token bytes of `validHeaderFieldByte` in `net/textproto`: digits,
letters and the fifteen punctuation bytes of an RFC 7230 token. -/
def validHeaderFieldByte (c : Char) : Bool :=
  let n := c.toNat
  (48 ≤ n && n ≤ 57) || (97 ≤ n && n ≤ 122) || (65 ≤ n && n ≤ 90) ||
    n == 33 || n == 35 || n == 36 || n == 37 || n == 38 || n == 39 || n == 42 ||
    n == 43 || n == 45 || n == 46 || n == 94 || n == 95 || n == 96 || n == 124 ||
    n == 126

/-- The constant `toLower = 'a' - 'A'` of `net/textproto`. -/
def toLower : Nat := 32

/-- The byte the second loop of `canonicalMIMEHeaderKey` writes for `c`:
upper case when `upper` is set and `c` is a lower-case letter, lower case
when it is not set and `c` is an upper-case letter, `c` itself otherwise. -/
def canonByte (upper : Bool) (c : Char) : Char :=
  if upper && (97 ≤ c.toNat && c.toNat ≤ 122) then Char.ofNat (c.toNat - toLower)
  else if !upper && (65 ≤ c.toNat && c.toNat ≤ 90) then Char.ofNat (c.toNat + toLower)
  else c

/-- The second loop of `canonicalMIMEHeaderKey`: upper-case the first letter
and every letter after a dash, lower-case every other letter. -/
def canonLoop : Bool → List Char → List Char
  | _, [] => []
  | upper, c :: cs => canonByte upper c :: canonLoop (canonByte upper c == '-') cs

/-- The first loop of `canonicalMIMEHeaderKey`: `none` when a byte that is
neither a token byte nor a space is met (the key is returned unchanged),
otherwise `some noCanon`. -/
def scanKey : Bool → List Char → Option Bool
  | noCanon, [] => some noCanon
  | noCanon, c :: cs =>
    if validHeaderFieldByte c then scanKey noCanon cs
    else if c == ' ' then scanKey true cs
    else none

/-- The function `canonicalMIMEHeaderKey` of `net/textproto` (the interning
through `commonHeader` returns an equal string and is left out). -/
def canonicalMIMEHeaderKey (a : List Char) : List Char :=
  match scanKey false a with
  | none => a
  | some true => a
  | some false => canonLoop true a

/-- The quick check of `CanonicalMIMEHeaderKey`: walks the key and either
returns it unchanged or hands it over to `canonicalMIMEHeaderKey`. -/
def quickCheck (s : List Char) : Bool → List Char → List Char
  | _, [] => s
  | upper, c :: cs =>
    if !validHeaderFieldByte c then s
    else if upper && (97 ≤ c.toNat && c.toNat ≤ 122) then canonicalMIMEHeaderKey s
    else if !upper && (65 ≤ c.toNat && c.toNat ≤ 90) then canonicalMIMEHeaderKey s
    else quickCheck s (c == '-') cs

/-- The function `textproto.CanonicalMIMEHeaderKey`. -/
def CanonicalMIMEHeaderKey (s : String) : String :=
  ⟨quickCheck s.data true s.data⟩

/-! ## `strings` -/

/-- The function `strings.Join`: the elements of `elems` with `sep` between
each two of them. -/
def strings.Join : List String → String → String
  | [], _ => ""
  | [a], _ => a
  | a :: b :: rest, sep => a ++ sep ++ strings.Join (b :: rest) sep

/-! ## `net/http.Header` -/

/-- The type `http.Header`, a Go `map[string][]string`: one entry per key,
kept in some iteration order. -/
abbrev Header := List (String × List String)

/-- The index expression `h[key]`: `none` when the key is absent (Go's
`ok == false`), otherwise the values stored under it. -/
def Header.index (h : Header) (key : String) : Option (List String) :=
  (h.find? (fun e => e.1 == key)).map Prod.snd

/-- The builtin `delete(h, key)`. -/
def Header.delete (h : Header) (key : String) : Header :=
  h.filter (fun e => e.1 != key)

/-- The assignment `h[key] = vs`. -/
def Header.assign (h : Header) (key : String) (vs : List String) : Header :=
  (key, vs) :: Header.delete h key

/-- The method `Header.Del`: `delete(h, CanonicalMIMEHeaderKey(key))`. -/
def Header.Del (h : Header) (key : String) : Header :=
  Header.delete h (CanonicalMIMEHeaderKey key)

/-- The method `Header.Set`: `h[CanonicalMIMEHeaderKey(key)] = []string{value}`. -/
def Header.Set (h : Header) (key value : String) : Header :=
  Header.assign h (CanonicalMIMEHeaderKey key) [value]

/-- The method `Header.Add`: appends `value` to the values stored under
`CanonicalMIMEHeaderKey(key)`. -/
def Header.Add (h : Header) (key value : String) : Header :=
  let k := CanonicalMIMEHeaderKey key
  Header.assign h k ((Header.index h k).getD [] ++ [value])

/-! ## `http_proxy.go`: header handling -/

/-- The variable `hopHeaders`. -/
def hopHeaders : List String :=
  ["Connection", "Keep-Alive", "Proxy-Authenticate", "Proxy-Authorization",
   "Te", "Trailers", "Transfer-Encoding", "Upgrade"]

/-- The function `delHopHeaders`: one `header.Del` per entry of `hopHeaders`. -/
def delHopHeaders (header : Header) : Header :=
  hopHeaders.foldl (fun hd h => Header.Del hd h) header

/-- The function `copyHeader`: for every key of `src` (in iteration order)
and every value under it, `dst.Add(k, v)`. -/
def copyHeader (dst src : Header) : Header :=
  src.foldl (fun d e => e.2.foldl (fun d1 v => Header.Add d1 e.1 v) d) dst

/-- The function `appendHostToXForwardHeader`. -/
def appendHostToXForwardHeader (header : Header) (host : String) : Header :=
  let host1 :=
    match Header.index header "X-Forwarded-For" with
    | some prior => strings.Join prior ", " ++ ", " ++ host
    | none => host
  Header.Set header "X-Forwarded-For" host1

/-! ## Vocabulary of the specification -/

/-- ASCII lower-casing of one character. -/
def asciiLower (c : Char) : Char :=
  if 65 ≤ c.toNat && c.toNat ≤ 90 then Char.ofNat (c.toNat + 32) else c

/-- ASCII lower-casing of a string, the normal form of the case-insensitive
comparison of header names. -/
def lowerASCII (s : String) : String := ⟨s.data.map asciiLower⟩

/-- The eight hop-by-hop header names as the specification lists them. -/
def hopByHopNames : List String :=
  ["Connection", "Keep-Alive", "Proxy-Authenticate", "Proxy-Authorization",
   "TE", "Trailers", "Transfer-Encoding", "Upgrade"]

/-- Whether `key` matches one of the eight hop-by-hop names under
case-insensitive comparison. -/
def isHopByHopName (key : String) : Bool :=
  hopByHopNames.any (fun n => lowerASCII n == lowerASCII key)

/-- Every key of the map is in canonical MIME form, which is what the
header parsers of `net/http` produce. -/
def canonicalKeys (h : Header) : Bool :=
  h.all (fun e => CanonicalMIMEHeaderKey e.1 == e.1)

/-- The statement of the specification for `delHopHeaders`, word for word:
the map restricted to the keys that match no hop-by-hop name. -/
def withoutHopByHop (h : Header) (key : String) : Option (List String) :=
  if isHopByHopName key then none else Header.index h key

/-- Splitting on the separator `", "` the way `strings.Split` does: leftmost
occurrences first, the pieces between them in order. -/
def splitCommaSpaceChars : List Char → List (List Char)
  | [] => [[]]
  | ',' :: ' ' :: rest => [] :: splitCommaSpaceChars rest
  | c :: rest =>
    match splitCommaSpaceChars rest with
    | [] => [[c]]
    | piece :: pieces => (c :: piece) :: pieces

/-- The list `strings.Split(s, ", ")`. -/
def splitCommaSpace (s : String) : List String :=
  (splitCommaSpaceChars s.data).map String.mk

/-- An address without a comma. -/
def commaFree (a : String) : Bool := !a.data.contains ','

/-- The value the specification gives the forwarded-address header: the
earlier values in their order, then the new address, `", "` between each two. -/
def forwardedList : List String → String → String
  | [], a => a
  | v :: vs, a => v ++ ", " ++ forwardedList vs a

/-! ## `net`: addresses and connections -/

/-- The position of the first `c` in `s`, as `bytealg.IndexByteString`. -/
def indexByte (s : List Char) (c : Char) : Option Nat :=
  if s.indexOf c < s.length then some (s.indexOf c) else none

/-- The position of the last `c` in `s`, as `bytealg.LastIndexByteString`. -/
def lastIndexByte (s : List Char) (c : Char) : Option Nat :=
  if s.reverse.indexOf c < s.length then some (s.length - 1 - s.reverse.indexOf c) else none

/-- The text of an `*net.AddrError`, its method `Error`. -/
def addrError (addr why : String) : String :=
  if addr = "" then why else "address " ++ addr ++ ": " ++ why

/-- The function `net.SplitHostPort`: host and port of `host:port`,
`[host]:port` or an error. -/
def net.SplitHostPort (hostport : String) : Except String (String × String) :=
  let s := hostport.data
  match lastIndexByte s ':' with
  | none => .error (addrError hostport "missing port in address")
  | some i =>
    let tail (j k : Nat) (host : List Char) : Except String (String × String) :=
      if (s.drop j).contains '[' then
        .error (addrError hostport "unexpected '[' in address")
      else if (s.drop k).contains ']' then
        .error (addrError hostport "unexpected ']' in address")
      else .ok (⟨host⟩, ⟨s.drop (i + 1)⟩)
    if s.head? == some '[' then
      match indexByte s ']' with
      | none => .error (addrError hostport "missing ']' in address")
      | some e =>
        if e + 1 = s.length then .error (addrError hostport "missing port in address")
        else if e + 1 = i then tail 1 (e + 1) ((s.take e).drop 1)
        else if (s.drop (e + 1)).head? == some ':' then
          .error (addrError hostport "too many colons in address")
        else .error (addrError hostport "missing port in address")
    else if (s.take i).contains ':' then
      .error (addrError hostport "too many colons in address")
    else tail 0 0 (s.take i)

/-- A `net.Conn`, named by a number. -/
structure Conn where
  id : Nat
  deriving DecidableEq, Repr

/-! ## Requests, responses and the response writer -/

/-- The fields of `*http.Request` the program reads. -/
structure Request where
  Method : String
  URL : String
  Host : String
  RemoteAddr : String
  Header : Header
  deriving DecidableEq, Repr

/-- The fields of `*http.Response` the program reads. -/
structure Response where
  Status : String
  StatusCode : Nat
  Header : Header
  Body : String
  deriving DecidableEq, Repr

/-- What the program does to the outside world, one event per call. -/
inductive Event where
  /-- The call `log.Printf` with the formatted line. -/
  | log (line : String)
  /-- The call `dialer.Dial(network, address)`. -/
  | dial (network address : String)
  /-- The call `w.WriteHeader(code)`, with `w.Header()` as it stands then. -/
  | writeHeader (code : Nat) (header : Header)
  /-- Bytes written to `w` (`w.Write`, also through `fmt.Fprintln` and `io.Copy`). -/
  | write (p : String)
  /-- The call `hijacker.Hijack()`. -/
  | hijack
  /-- The call `transport.RoundTrip(req)`. -/
  | roundTrip (req : Request)
  /-- The statement `go transfer(dst, src)`. -/
  | go (dst src : Conn)
  /-- The call `io.Copy(dst, src)` between two connections, run to its end. -/
  | copy (dst src : Conn)
  /-- The call `c.Close()` on a connection. -/
  | close (c : Conn)
  /-- The call `resp.Body.Close()`. -/
  | bodyClose
  deriving DecidableEq, Repr

/-- The `http.ResponseWriter` of one request together with the record of what
has happened so far. `hijacker` is `none` when `w` does not implement
`http.Hijacker`, and otherwise what `Hijack()` returns. -/
structure World where
  header : Header
  hijacker : Option (Except String Conn)
  trace : List Event

/-- A response writer nothing has been written to, with an empty `Header()`. -/
def World.fresh (hijacker : Option (Except String Conn)) : World :=
  ⟨[], hijacker, []⟩

/-- Records one event. -/
def World.emit (w : World) (e : Event) : World :=
  { w with trace := w.trace ++ [e] }

/-- The method `w.WriteHeader(code)`. -/
def World.WriteHeader (w : World) (code : Nat) : World :=
  w.emit (.writeHeader code w.header)

/-- The headers `http.Error` puts into `w.Header()`: no `Content-Length`,
a plain-text `Content-Type` and `X-Content-Type-Options: nosniff`. -/
def http.errorHeader (h : Header) : Header :=
  let h := Header.Del h "Content-Length"
  let h := Header.Set h "Content-Type" "text/plain; charset=utf-8"
  Header.Set h "X-Content-Type-Options" "nosniff"

/-- The function `http.Error`: the error headers, the status `code`, then
`error` and a newline as the body. -/
def http.Error (w : World) (error : String) (code : Nat) : World :=
  (({ w with header := http.errorHeader w.header }).WriteHeader code).emit
    (.write (error ++ "\n"))

/-- The constant `http.StatusOK`. -/
def http.StatusOK : Nat := 200

/-- The constant `http.StatusInternalServerError`. -/
def http.StatusInternalServerError : Nat := 500

/-- The constant `http.StatusServiceUnavailable`. -/
def http.StatusServiceUnavailable : Nat := 503

/-- The start of every log line: `req.RemoteAddr`, `req.Method`, `req.URL`. -/
def logPrefix (req : Request) : String :=
  req.RemoteAddr ++ " " ++ req.Method ++ " " ++ req.URL ++ " "

/-! ## Messages as `net/http` reads them -/

/-- The header map `net/http` builds from the header fields of a message,
name and value, in the order they arrive: every field is stored under the
canonical form of its name, as `textproto.Reader.ReadMIMEHeader` does for
HTTP/1 and the HTTP/2 framer does for its lower-case names. -/
def readHeader (fields : List (String × String)) : Header :=
  fields.foldl (fun h f => Header.Add h f.1 f.2) []

/-- A response as the target sends it: status, header fields in order, body. -/
structure WireResponse where
  Status : String
  StatusCode : Nat
  Fields : List (String × String)
  Body : String
  deriving DecidableEq, Repr

/-- The `*http.Response` read from a response on the wire. -/
def readResponse (m : WireResponse) : Response :=
  ⟨m.Status, m.StatusCode, readHeader m.Fields, m.Body⟩

/-- The method `RoundTrip` of `*http.Transport`, the transport `main` builds:
the exchange with the target either fails or gives a response, which is
read into an `*http.Response`. -/
def roundTripOver (target : Request → Except String WireResponse) :
    Request → Except String Response :=
  fun req =>
    match target req with
    | .error err => .error err
    | .ok m => .ok (readResponse m)

/-! ## `http_proxy.go`: the two handlers -/

/-- The function `transfer`, once `io.Copy` has come back: the copy, then the
deferred calls in reverse order, `src.Close()` before `dst.Close()`. -/
def transfer (dst src : Conn) : List Event :=
  [.copy dst src, .close src, .close dst]

/-- The function `connect`. `dialer` is `dialer.Dial`. -/
def connect (dialer : String → String → Except String Conn) (w : World) (req : Request) :
    World :=
  let w := w.emit (.dial "tcp" req.Host)
  match dialer "tcp" req.Host with
  | .error err =>
    let w := w.emit (.log (logPrefix req ++ "dial error: " ++ err))
    http.Error w ("dial error: " ++ err) http.StatusServiceUnavailable
  | .ok dst =>
    let w := w.WriteHeader http.StatusOK
    match w.hijacker with
    | none =>
      let w := w.emit (.log (logPrefix req ++ "hijacking not supported"))
      http.Error w "hijacking not supported" http.StatusInternalServerError
    | some result =>
      let w := w.emit .hijack
      match result with
      | .error err =>
        let w := w.emit (.log (logPrefix req ++ "hijack error: " ++ err))
        http.Error w ("hijack error: " ++ err) http.StatusServiceUnavailable
      | .ok src =>
        let w := w.emit (.log (logPrefix req ++ toString http.StatusOK))
        let w := w.emit (.go dst src)
        w.emit (.go src dst)

/-- The second part of `proxyHTTP`, from `delHopHeaders(req.Header)` to the
end: the round trip and the reply to the client. `transport` is
`transport.RoundTrip`. -/
def proxyHTTP.forward (transport : Request → Except String Response) (w : World)
    (req : Request) : World :=
  let req := { req with Header := delHopHeaders req.Header }
  let w := w.emit (.roundTrip req)
  match transport req with
  | .error err =>
    let w := w.emit (.log (logPrefix req ++ "error sending request: " ++ err))
    http.Error w ("proxy failed: " ++ err) http.StatusInternalServerError
  | .ok resp =>
    let w := w.emit (.log (logPrefix req ++ resp.Status))
    let resp := { resp with Header := delHopHeaders resp.Header }
    let w := { w with header := copyHeader w.header resp.Header }
    let w := w.WriteHeader resp.StatusCode
    let w := w.emit (.write resp.Body)
    w.emit .bodyClose

/-- The function `proxyHTTP`. `flagAddForwardedFor` is the value of the flag.
The first part, the forwarded-address block, either answers 500 and returns
or goes on to the second part. -/
def proxyHTTP (flagAddForwardedFor : Bool) (transport : Request → Except String Response)
    (w : World) (req : Request) : World :=
  if flagAddForwardedFor then
    match net.SplitHostPort req.RemoteAddr with
    | .error err =>
      let w := w.emit (.log (logPrefix req ++ "invalid remote address: " ++ err))
      http.Error w "invalid remote address" http.StatusInternalServerError
    | .ok (clientIP, _) =>
      proxyHTTP.forward transport w
        { req with Header := appendHostToXForwardHeader req.Header clientIP }
  else proxyHTTP.forward transport w req

/-- The handler of `main`: `CONNECT` goes to `connect`, every other method to
`proxyHTTP`. -/
def handler (flagAddForwardedFor : Bool) (dialer : String → String → Except String Conn)
    (transport : Request → Except String Response) (w : World) (r : Request) : World :=
  if r.Method == "CONNECT" then connect dialer w r
  else proxyHTTP flagAddForwardedFor transport w r

/-! ## Reading a trace -/

/-- The requests handed to `transport.RoundTrip`. -/
def roundTrips : List Event → List Request
  | [] => []
  | .roundTrip r :: es => r :: roundTrips es
  | _ :: es => roundTrips es

/-- The status codes passed to `w.WriteHeader`, in order. -/
def statusesWritten : List Event → List Nat
  | [] => []
  | .writeHeader code _ :: es => code :: statusesWritten es
  | _ :: es => statusesWritten es

/-- The header sets passed along with `w.WriteHeader`, in order. -/
def headersWritten : List Event → List Header
  | [] => []
  | .writeHeader _ h :: es => h :: headersWritten es
  | _ :: es => headersWritten es

/-- The body bytes written to `w`, in order. -/
def bodyWritten : List Event → String
  | [] => ""
  | .write p :: es => p ++ bodyWritten es
  | _ :: es => bodyWritten es

/-- The status line the client receives from a `net/http` response writer:
the first `WriteHeader` counts, later ones are dropped as superfluous, and a
write with no `WriteHeader` before it sends 200. -/
def clientStatus : List Event → Option Nat
  | [] => none
  | .writeHeader code _ :: _ => some code
  | .write _ :: _ => some 200
  | _ :: es => clientStatus es

/-- The `go` statements of a trace, each with its two connections. -/
def spawned : List Event → List (Conn × Conn)
  | [] => []
  | .go dst src :: es => (dst, src) :: spawned es
  | _ :: es => spawned es

/-- How often `c.Close()` is called in a trace. -/
def closeCalls (c : Conn) (t : List Event) : Nat := t.count (.close c)

/-- Whether a header set holds a key that matches a hop-by-hop name. -/
def hasHopByHop (h : Header) : Bool := h.any (fun e => isHopByHopName e.1)

/-- A key in canonical form that matches no hop-by-hop name. -/
def goodKey (k : String) : Prop :=
  CanonicalMIMEHeaderKey k = k ∧ isHopByHopName k = false

/-! ## Sample inputs -/

/-- A `GET` request from the peer `5.6.7.8:9999` that already carries
`X-Forwarded-For: 1.2.3.4` and a `Connection` header. -/
def sampleRequest : Request :=
  ⟨"GET", "http://example.org/", "example.org", "5.6.7.8:9999",
    [("X-Forwarded-For", ["1.2.3.4"]), ("Connection", ["keep-alive"])]⟩

/-- The same request with a peer address that has no port. -/
def sampleRequestNoPort : Request :=
  { sampleRequest with RemoteAddr := "5.6.7.8" }

/-- A `CONNECT` request for `example.org:443`. -/
def sampleConnect : Request :=
  ⟨"CONNECT", "example.org:443", "example.org:443", "5.6.7.8:9999", []⟩

/-- A target that answers `404 Not Found` with `Connection: close`. -/
def notFound : Request → Except String Response :=
  fun _ => .ok ⟨"404 Not Found", 404, [("Connection", ["close"]), ("Server", ["t"])], "gone"⟩

/-- The header fields of a request as a client may spell them. -/
def sampleFields : List (String × String) :=
  [("x-forwarded-for", "1.2.3.4"), ("connection", "keep-alive"), ("TE", "trailers"),
   ("accept", "text/html")]

/-- A target that answers `404 Not Found` with the fields `connection: close`
and `Server: t`. -/
def sampleTarget : Request → Except String WireResponse :=
  fun _ => .ok ⟨"404 Not Found", 404, [("connection", "close"), ("Server", "t")], "gone"⟩

/-! ## Canonical keys and case-insensitive matching -/

theorem canonLoop_cons (upper : Bool) (c : Char) (cs : List Char) :
    canonLoop upper (c :: cs) = canonByte upper c :: canonLoop (canonByte upper c == '-') cs :=
  rfl

theorem upperLetter_cases (P : Char → Prop)
    (hP : ∀ n, 65 ≤ n → n ≤ 90 → P (Char.ofNat n)) (c : Char)
    (h1 : 65 ≤ c.toNat) (h2 : c.toNat ≤ 90) : P c := by
  have h := hP c.toNat h1 h2
  rwa [Char.ofNat_toNat] at h

theorem lowerLetter_cases (P : Char → Prop)
    (hP : ∀ n, 97 ≤ n → n ≤ 122 → P (Char.ofNat n)) (c : Char)
    (h1 : 97 ≤ c.toNat) (h2 : c.toNat ≤ 122) : P c := by
  have h := hP c.toNat h1 h2
  rwa [Char.ofNat_toNat] at h

theorem asciiLower_of_not_upper (c : Char) (h : ¬ (65 ≤ c.toNat ∧ c.toNat ≤ 90)) :
    asciiLower c = c := by
  unfold asciiLower
  split
  · rename_i h1
    simp only [Bool.and_eq_true, decide_eq_true_eq] at h1
    exact absurd h1 h
  · rfl

theorem valid_asciiLower (c : Char) :
    validHeaderFieldByte (asciiLower c) = validHeaderFieldByte c := by
  by_cases h : 65 ≤ c.toNat ∧ c.toNat ≤ 90
  · refine upperLetter_cases (fun c => validHeaderFieldByte (asciiLower c) = validHeaderFieldByte c)
      ?_ c h.1 h.2
    intro n h1 h2
    interval_cases n <;> decide
  · rw [asciiLower_of_not_upper c h]

theorem canonByte_asciiLower (upper : Bool) (c : Char) :
    canonByte upper (asciiLower c) = canonByte upper c := by
  by_cases h : 65 ≤ c.toNat ∧ c.toNat ≤ 90
  · refine upperLetter_cases (fun c => canonByte upper (asciiLower c) = canonByte upper c)
      ?_ c h.1 h.2
    intro n h1 h2
    cases upper <;> interval_cases n <;> decide
  · rw [asciiLower_of_not_upper c h]

theorem canonLoop_map_asciiLower (cs : List Char) (upper : Bool) :
    canonLoop upper (cs.map asciiLower) = canonLoop upper cs := by
  induction cs generalizing upper with
  | nil => rfl
  | cons c cs ih =>
    rw [List.map_cons, canonLoop_cons, canonLoop_cons, canonByte_asciiLower, ih]

theorem all_valid_map_asciiLower (cs : List Char) :
    (cs.map asciiLower).all validHeaderFieldByte = cs.all validHeaderFieldByte := by
  induction cs with
  | nil => rfl
  | cons c cs ih => simp only [List.map_cons, List.all_cons, valid_asciiLower, ih]

theorem canonByte_ne_of_lower (c : Char) (h1 : 97 ≤ c.toNat) (h2 : c.toNat ≤ 122) :
    Char.ofNat (c.toNat - toLower) ≠ c := by
  refine lowerLetter_cases (fun c => Char.ofNat (c.toNat - toLower) ≠ c) ?_ c h1 h2
  intro n h1 h2
  interval_cases n <;> decide

theorem canonByte_ne_of_upper (c : Char) (h1 : 65 ≤ c.toNat) (h2 : c.toNat ≤ 90) :
    Char.ofNat (c.toNat + toLower) ≠ c := by
  refine upperLetter_cases (fun c => Char.ofNat (c.toNat + toLower) ≠ c) ?_ c h1 h2
  intro n h1 h2
  interval_cases n <;> decide

theorem scanKey_of_all_valid (cs : List Char) (noCanon : Bool)
    (h : cs.all validHeaderFieldByte = true) : scanKey noCanon cs = some noCanon := by
  induction cs with
  | nil => rfl
  | cons c cs ih =>
    simp only [List.all_cons, Bool.and_eq_true] at h
    simp only [scanKey, h.1, if_true]
    exact ih h.2

theorem canonicalMIMEHeaderKey_of_all_valid (a : List Char)
    (h : a.all validHeaderFieldByte = true) : canonicalMIMEHeaderKey a = canonLoop true a := by
  unfold canonicalMIMEHeaderKey
  rw [scanKey_of_all_valid a false h]

theorem quickCheck_of_all_valid (s cs : List Char) (upper : Bool)
    (h : cs.all validHeaderFieldByte = true) :
    quickCheck s upper cs = if canonLoop upper cs = cs then s else canonicalMIMEHeaderKey s := by
  induction cs generalizing upper with
  | nil => simp [quickCheck, canonLoop]
  | cons c cs ih =>
    simp only [List.all_cons, Bool.and_eq_true] at h
    rw [canonLoop_cons]
    unfold quickCheck canonByte
    simp only [h.1, Bool.not_true, Bool.false_eq_true, if_false]
    by_cases hl : (upper && (decide (97 ≤ c.toNat) && decide (c.toNat ≤ 122))) = true
    · have hl2 := hl
      simp only [Bool.and_eq_true, decide_eq_true_eq] at hl2
      simp only [hl, if_true]
      rw [if_neg]
      intro hc
      exact canonByte_ne_of_lower c hl2.2.1 hl2.2.2 (List.cons.inj hc).1
    · simp only [hl, if_false]
      by_cases hu : (!upper && (decide (65 ≤ c.toNat) && decide (c.toNat ≤ 90))) = true
      · have hu2 := hu
        simp only [Bool.and_eq_true, decide_eq_true_eq] at hu2
        simp only [hu, if_true, Bool.false_eq_true, if_false]
        rw [if_neg]
        intro hc
        exact canonByte_ne_of_upper c hu2.2.1 hu2.2.2 (List.cons.inj hc).1
      · simp only [hu, if_false, Bool.false_eq_true]
        rw [ih _ h.2]
        simp only [List.cons.injEq, true_and]

/-- On a key made of token bytes only, `CanonicalMIMEHeaderKey` is the
canonicalising loop. -/
theorem CanonicalMIMEHeaderKey_of_all_valid (s : String)
    (h : s.data.all validHeaderFieldByte = true) :
    CanonicalMIMEHeaderKey s = ⟨canonLoop true s.data⟩ := by
  unfold CanonicalMIMEHeaderKey
  rw [quickCheck_of_all_valid s.data s.data true h]
  split
  · rename_i hc
    rw [hc]
  · rw [canonicalMIMEHeaderKey_of_all_valid _ h]

/-- Two keys of token bytes that differ in letter case only have the same
canonical form. -/
theorem CanonicalMIMEHeaderKey_eq_of_lowerASCII_eq (n k : String)
    (hn : n.data.all validHeaderFieldByte = true) (hk : lowerASCII n = lowerASCII k) :
    CanonicalMIMEHeaderKey k = CanonicalMIMEHeaderKey n := by
  have hd : n.data.map asciiLower = k.data.map asciiLower := by
    have := congrArg String.data hk
    simpa [lowerASCII] using this
  have hkv : k.data.all validHeaderFieldByte = true := by
    rw [← all_valid_map_asciiLower, ← hd, all_valid_map_asciiLower, hn]
  rw [CanonicalMIMEHeaderKey_of_all_valid k hkv, CanonicalMIMEHeaderKey_of_all_valid n hn,
    ← canonLoop_map_asciiLower k.data, ← hd, canonLoop_map_asciiLower]

/-- A key in canonical form that matches a hop-by-hop name without regard to
case is one of the eight entries of `hopHeaders`. -/
theorem mem_hopHeaders_of_canonical (k : String) (hm : isHopByHopName k = true)
    (hc : CanonicalMIMEHeaderKey k = k) : k ∈ hopHeaders := by
  unfold isHopByHopName at hm
  rw [List.any_eq_true] at hm
  obtain ⟨n, hn, hnk⟩ := hm
  have hnk2 : lowerASCII n = lowerASCII k := by simpa using hnk
  have hall : ∀ n ∈ hopByHopNames,
      n.data.all validHeaderFieldByte = true ∧ CanonicalMIMEHeaderKey n ∈ hopHeaders := by
    decide
  have h1 := CanonicalMIMEHeaderKey_eq_of_lowerASCII_eq n k (hall n hn).1 hnk2
  rw [hc] at h1
  rw [h1]
  exact (hall n hn).2

/-- Every entry of `hopHeaders` matches a hop-by-hop name. -/
theorem isHopByHopName_of_mem_hopHeaders (k : String) (h : k ∈ hopHeaders) :
    isHopByHopName k = true := by
  have hall : ∀ n ∈ hopHeaders, isHopByHopName n = true := by decide
  exact hall k h

/-! ## Canonical keys are fixed points -/

theorem canonByte_of_not_letter (upper : Bool) (c : Char)
    (hl : ¬ (97 ≤ c.toNat ∧ c.toNat ≤ 122)) (hu : ¬ (65 ≤ c.toNat ∧ c.toNat ≤ 90)) :
    canonByte upper c = c := by
  unfold canonByte
  have h1 : (decide (97 ≤ c.toNat) && decide (c.toNat ≤ 122)) = false := by
    rw [Bool.eq_false_iff]
    intro h
    simp only [Bool.and_eq_true, decide_eq_true_eq] at h
    exact hl h
  have h2 : (decide (65 ≤ c.toNat) && decide (c.toNat ≤ 90)) = false := by
    rw [Bool.eq_false_iff]
    intro h
    simp only [Bool.and_eq_true, decide_eq_true_eq] at h
    exact hu h
  simp only [h1, h2, Bool.and_false, Bool.false_eq_true, if_false]

theorem valid_canonByte (upper : Bool) (c : Char) :
    validHeaderFieldByte (canonByte upper c) = validHeaderFieldByte c := by
  by_cases hl : 97 ≤ c.toNat ∧ c.toNat ≤ 122
  · refine lowerLetter_cases
      (fun c => validHeaderFieldByte (canonByte upper c) = validHeaderFieldByte c) ?_ c hl.1 hl.2
    intro n h1 h2
    cases upper <;> interval_cases n <;> decide
  · by_cases hu : 65 ≤ c.toNat ∧ c.toNat ≤ 90
    · refine upperLetter_cases
        (fun c => validHeaderFieldByte (canonByte upper c) = validHeaderFieldByte c) ?_ c
        hu.1 hu.2
      intro n h1 h2
      cases upper <;> interval_cases n <;> decide
    · rw [canonByte_of_not_letter upper c hl hu]

theorem canonByte_idem (upper : Bool) (c : Char) :
    canonByte upper (canonByte upper c) = canonByte upper c := by
  by_cases hl : 97 ≤ c.toNat ∧ c.toNat ≤ 122
  · refine lowerLetter_cases
      (fun c => canonByte upper (canonByte upper c) = canonByte upper c) ?_ c hl.1 hl.2
    intro n h1 h2
    cases upper <;> interval_cases n <;> decide
  · by_cases hu : 65 ≤ c.toNat ∧ c.toNat ≤ 90
    · refine upperLetter_cases
        (fun c => canonByte upper (canonByte upper c) = canonByte upper c) ?_ c hu.1 hu.2
      intro n h1 h2
      cases upper <;> interval_cases n <;> decide
    · rw [canonByte_of_not_letter upper c hl hu, canonByte_of_not_letter upper c hl hu]

theorem canonLoop_idem (cs : List Char) (upper : Bool) :
    canonLoop upper (canonLoop upper cs) = canonLoop upper cs := by
  induction cs generalizing upper with
  | nil => rfl
  | cons c cs ih => rw [canonLoop_cons, canonLoop_cons, canonByte_idem, ih]

theorem all_valid_canonLoop (cs : List Char) (upper : Bool) :
    (canonLoop upper cs).all validHeaderFieldByte = cs.all validHeaderFieldByte := by
  induction cs generalizing upper with
  | nil => rfl
  | cons c cs ih => rw [canonLoop_cons, List.all_cons, List.all_cons, valid_canonByte, ih]

theorem all_valid_of_scanKey (cs : List Char) (noCanon : Bool)
    (h : scanKey noCanon cs = some false) :
    noCanon = false ∧ cs.all validHeaderFieldByte = true := by
  induction cs generalizing noCanon with
  | nil =>
    simp only [scanKey, Option.some.injEq] at h
    exact ⟨h, rfl⟩
  | cons c cs ih =>
    unfold scanKey at h
    by_cases hv : validHeaderFieldByte c = true
    · rw [if_pos hv] at h
      obtain ⟨h1, h2⟩ := ih noCanon h
      exact ⟨h1, by rw [List.all_cons, hv, h2]; rfl⟩
    · rw [if_neg hv] at h
      by_cases hsp : (c == ' ') = true
      · rw [if_pos hsp] at h
        exact absurd (ih true h).1 (by decide)
      · rw [if_neg hsp] at h
        exact absurd h (by simp)

theorem canonicalMIMEHeaderKey_of_not_all_valid (a : List Char)
    (h : a.all validHeaderFieldByte = false) : canonicalMIMEHeaderKey a = a := by
  unfold canonicalMIMEHeaderKey
  cases hs : scanKey false a with
  | none => rfl
  | some b =>
    cases b with
    | true => rfl
    | false =>
      have := (all_valid_of_scanKey a false hs).2
      rw [h] at this
      exact absurd this (by decide)

theorem quickCheck_cases (s cs : List Char) (upper : Bool) :
    quickCheck s upper cs = s ∨ quickCheck s upper cs = canonicalMIMEHeaderKey s := by
  induction cs generalizing upper with
  | nil => exact Or.inl rfl
  | cons c cs ih =>
    unfold quickCheck
    split
    · exact Or.inl rfl
    · split
      · exact Or.inr rfl
      · split
        · exact Or.inr rfl
        · exact ih _

/-- A key with a byte that is no token byte is left as it is. -/
theorem CanonicalMIMEHeaderKey_of_not_all_valid (s : String)
    (h : s.data.all validHeaderFieldByte = false) : CanonicalMIMEHeaderKey s = s := by
  unfold CanonicalMIMEHeaderKey
  rcases quickCheck_cases s.data s.data true with h1 | h1
  · rw [h1]
  · rw [h1, canonicalMIMEHeaderKey_of_not_all_valid s.data h]

/-- The canonical form of a key is its own canonical form. -/
theorem CanonicalMIMEHeaderKey_idem (s : String) :
    CanonicalMIMEHeaderKey (CanonicalMIMEHeaderKey s) = CanonicalMIMEHeaderKey s := by
  cases hv : s.data.all validHeaderFieldByte with
  | false =>
    have h := CanonicalMIMEHeaderKey_of_not_all_valid s hv
    rw [h]
    exact h
  | true =>
    rw [CanonicalMIMEHeaderKey_of_all_valid s hv]
    have hv2 : (String.mk (canonLoop true s.data)).data.all validHeaderFieldByte = true := by
      show (canonLoop true s.data).all validHeaderFieldByte = true
      rw [all_valid_canonLoop, hv]
    rw [CanonicalMIMEHeaderKey_of_all_valid _ hv2]
    show String.mk (canonLoop true (canonLoop true s.data)) = String.mk (canonLoop true s.data)
    rw [canonLoop_idem]

/-! ## The header map -/

theorem foldl_delete_eq_filter (ks : List String) (h : Header) :
    ks.foldl (fun hd k => Header.delete hd k) h = h.filter (fun e => !ks.contains e.1) := by
  induction ks generalizing h with
  | nil => simp
  | cons k ks ih =>
    rw [List.foldl_cons, ih, Header.delete, List.filter_filter]
    congr 1
    funext e
    by_cases hk : e.1 = k <;> simp [hk, List.contains_cons]

/-- What `delHopHeaders` does to the map: it drops the entries whose key is
spelled exactly as an entry of `hopHeaders` and keeps the rest in place. -/
theorem delHopHeaders_eq_filter (h : Header) :
    delHopHeaders h = h.filter (fun e => !hopHeaders.contains e.1) := by
  have hcanon : hopHeaders.map CanonicalMIMEHeaderKey = hopHeaders := by decide
  have hfold : delHopHeaders h
      = (hopHeaders.map CanonicalMIMEHeaderKey).foldl (fun hd k => Header.delete hd k) h := by
    rw [List.foldl_map]
    rfl
  rw [hfold, hcanon, foldl_delete_eq_filter]

theorem index_filter_key (q : String → Bool) (h : Header) (k : String) :
    Header.index (h.filter (fun e => q e.1)) k = if q k then Header.index h k else none := by
  induction h with
  | nil => simp [Header.index]
  | cons e h ih =>
    unfold Header.index at ih ⊢
    by_cases hq : q e.1 = true
    · have hf : (e :: h).filter (fun e => q e.1) = e :: h.filter (fun e => q e.1) :=
        List.filter_cons_of_pos (by simpa using hq)
      rw [hf]
      by_cases hk : e.1 = k
      · subst hk
        simp [hq]
      · have hb : (e.1 == k) = false := by simpa using hk
        simp only [List.find?_cons, hb]
        exact ih
    · have hf : (e :: h).filter (fun e => q e.1) = h.filter (fun e => q e.1) :=
        List.filter_cons_of_neg (by simpa using hq)
      rw [hf]
      by_cases hk : e.1 = k
      · subst hk
        simp only [Bool.not_eq_true] at hq
        simpa [hq] using ih
      · have hb : (e.1 == k) = false := by simpa using hk
        simp only [List.find?_cons, hb]
        exact ih

theorem index_delHopHeaders (h : Header) (k : String) :
    Header.index (delHopHeaders h) k
      = if hopHeaders.contains k then none else Header.index h k := by
  rw [delHopHeaders_eq_filter, index_filter_key (fun k => !hopHeaders.contains k)]
  cases hopHeaders.contains k <;> simp

theorem mem_of_index_eq_some (h : Header) (k : String) (vs : List String)
    (hi : Header.index h k = some vs) : (k, vs) ∈ h := by
  unfold Header.index at hi
  rw [Option.map_eq_some'] at hi
  obtain ⟨e, he, hev⟩ := hi
  have h1 := List.find?_some he
  have h2 := List.mem_of_find?_eq_some he
  have h3 : e.1 = k := by simpa using h1
  rw [← h3, ← hev]
  exact h2

theorem canonical_of_mem (h : Header) (hc : canonicalKeys h = true) (e : String × List String)
    (he : e ∈ h) : CanonicalMIMEHeaderKey e.1 = e.1 := by
  unfold canonicalKeys at hc
  rw [List.all_eq_true] at hc
  simpa using hc e he

theorem index_assign_self (h : Header) (k : String) (vs : List String) :
    Header.index (Header.assign h k vs) k = some vs := by
  simp [Header.index, Header.assign]

theorem canon_XForwardedFor : CanonicalMIMEHeaderKey "X-Forwarded-For" = "X-Forwarded-For" := by
  decide

theorem join_append_eq_forwardedList (v : String) (vs : List String) (a : String) :
    strings.Join (v :: vs) ", " ++ ", " ++ a = forwardedList (v :: vs) a := by
  induction vs generalizing v with
  | nil => rfl
  | cons w ws ih =>
    show (v ++ ", " ++ strings.Join (w :: ws) ", ") ++ ", " ++ a
      = v ++ ", " ++ forwardedList (w :: ws) a
    rw [← ih]
    simp only [String.append_assoc]

/-! ## Splitting the forwarded-address header -/

theorem splitCommaSpaceChars_cons_of_ne (c : Char) (rest : List Char) (hc : c ≠ ',') :
    splitCommaSpaceChars (c :: rest)
      = match splitCommaSpaceChars rest with
        | [] => [[c]]
        | piece :: pieces => (c :: piece) :: pieces := by
  rw [splitCommaSpaceChars]
  intro r h1 _
  exact hc h1

theorem splitCommaSpaceChars_append_sep (x r : List Char) (hx : x.contains ',' = false) :
    splitCommaSpaceChars (x ++ ',' :: ' ' :: r) = x :: splitCommaSpaceChars r := by
  induction x with
  | nil => simp [splitCommaSpaceChars]
  | cons c x ih =>
    have hc : c ≠ ',' := by
      intro h
      simp [h] at hx
    have hx2 : x.contains ',' = false := by
      simp only [List.contains_cons, Bool.or_eq_false_iff] at hx
      exact hx.2
    rw [List.cons_append, splitCommaSpaceChars_cons_of_ne _ _ hc, ih hx2]

theorem splitCommaSpaceChars_of_commaFree (x : List Char) (hx : x.contains ',' = false) :
    splitCommaSpaceChars x = [x] := by
  induction x with
  | nil => simp [splitCommaSpaceChars]
  | cons c x ih =>
    have hc : c ≠ ',' := by
      intro h
      simp [h] at hx
    have hx2 : x.contains ',' = false := by
      simp only [List.contains_cons, Bool.or_eq_false_iff] at hx
      exact hx.2
    rw [splitCommaSpaceChars_cons_of_ne _ _ hc, ih hx2]

/-- The bytes of the header value after the hops `a1`, then `rest`. -/
theorem data_foldl_append (rest : List String) (a1 : String) :
    (rest.foldl (fun acc a => acc ++ ", " ++ a) a1).data
      = a1.data ++ (rest.map (fun a => ',' :: ' ' :: a.data)).flatten := by
  induction rest generalizing a1 with
  | nil => simp
  | cons a rest ih =>
    rw [List.foldl_cons, ih]
    simp [String.data_append]

theorem splitCommaSpaceChars_joined (rest : List String) (x : List Char)
    (hx : x.contains ',' = false) (hrest : ∀ a ∈ rest, commaFree a = true) :
    splitCommaSpaceChars (x ++ (rest.map (fun a => ',' :: ' ' :: a.data)).flatten)
      = x :: rest.map String.data := by
  induction rest generalizing x with
  | nil => simpa using splitCommaSpaceChars_of_commaFree x hx
  | cons a rest ih =>
    have ha : a.data.contains ',' = false := by
      have := hrest a (List.mem_cons_self a rest)
      simpa [commaFree] using this
    have hr : ∀ b ∈ rest, commaFree b = true := fun b hb => hrest b (List.mem_cons_of_mem a hb)
    rw [List.map_cons, List.flatten_cons, List.cons_append, List.cons_append,
      splitCommaSpaceChars_append_sep x _ hx, ih a.data ha hr, List.map_cons]

theorem splitCommaSpace_foldl (rest : List String) (a1 : String)
    (h : ∀ a ∈ a1 :: rest, commaFree a = true) :
    splitCommaSpace (rest.foldl (fun acc a => acc ++ ", " ++ a) a1) = a1 :: rest := by
  have h1 : a1.data.contains ',' = false := by
    have := h a1 (List.mem_cons_self a1 rest)
    simpa [commaFree] using this
  have hr : ∀ b ∈ rest, commaFree b = true := fun b hb => h b (List.mem_cons_of_mem a1 hb)
  unfold splitCommaSpace
  rw [data_foldl_append, splitCommaSpaceChars_joined rest a1.data h1 hr]
  have hid : rest.map (String.mk ∘ String.data) = rest :=
    (List.map_congr_left (fun _ _ => rfl)).trans (List.map_id rest)
  simp [hid]

/-! ## The forwarded-address header -/

theorem index_appendHost_of_none (h : Header) (a : String)
    (hn : Header.index h "X-Forwarded-For" = none) :
    Header.index (appendHostToXForwardHeader h a) "X-Forwarded-For" = some [a] := by
  unfold appendHostToXForwardHeader Header.Set
  rw [hn, canon_XForwardedFor, index_assign_self]

theorem index_appendHost_of_some (h : Header) (a : String) (prior : List String)
    (hs : Header.index h "X-Forwarded-For" = some prior) :
    Header.index (appendHostToXForwardHeader h a) "X-Forwarded-For"
      = some [strings.Join prior ", " ++ ", " ++ a] := by
  unfold appendHostToXForwardHeader Header.Set
  rw [hs, canon_XForwardedFor, index_assign_self]

theorem index_foldl_appendHost (rest : List String) (h : Header) (v : String)
    (hv : Header.index h "X-Forwarded-For" = some [v]) :
    Header.index (rest.foldl appendHostToXForwardHeader h) "X-Forwarded-For"
      = some [rest.foldl (fun acc a => acc ++ ", " ++ a) v] := by
  induction rest generalizing h v with
  | nil => simpa using hv
  | cons a rest ih =>
    rw [List.foldl_cons, List.foldl_cons]
    exact ih _ _ (index_appendHost_of_some h a [v] hv)

/-! ## Claims on the header functions -/

/-- C2, amended: on a header map whose keys are all in canonical MIME form,
`delHopHeaders` leaves exactly the map restricted to the keys that match none
of the eight hop-by-hop names under case-insensitive comparison: a matching
key is absent afterwards, every other key holds the same values in the same
order. -/
theorem delHopHeaders_restricts_canonical (h : Header) (hc : canonicalKeys h = true)
    (k : String) : Header.index (delHopHeaders h) k = withoutHopByHop h k := by
  rw [index_delHopHeaders]
  unfold withoutHopByHop
  by_cases hk : k ∈ hopHeaders
  · have h1 : hopHeaders.contains k = true := by simpa using hk
    rw [if_pos h1, if_pos (isHopByHopName_of_mem_hopHeaders k hk)]
  · have h1 : ¬ hopHeaders.contains k = true := by simpa using hk
    rw [if_neg h1]
    by_cases hm : isHopByHopName k = true
    · rw [if_pos hm]
      cases hi : Header.index h k with
      | none => rfl
      | some vs =>
        have hmem := mem_of_index_eq_some h k vs hi
        have hcan := canonical_of_mem h hc (k, vs) hmem
        exact absurd (mem_hopHeaders_of_canonical k hm hcan) hk
    · rw [if_neg hm]

/-- C2, witness: a canonical map with two hop-by-hop keys and one other key,
looked up at `"Te"`. -/
theorem delHopHeaders_restricts_canonical_witness :
    Header.index
        (delHopHeaders
          [("Connection", ["close"]), ("Host", ["example.org"]), ("Te", ["trailers"])]) "Te"
      = withoutHopByHop
          [("Connection", ["close"]), ("Host", ["example.org"]), ("Te", ["trailers"])] "Te" :=
  delHopHeaders_restricts_canonical
    [("Connection", ["close"]), ("Host", ["example.org"]), ("Te", ["trailers"])]
    (by decide) "Te"

/-- C2, counterexample: the key `"connection"` matches a hop-by-hop name
without regard to case, and `delHopHeaders` leaves it in the map with its
value. -/
theorem delHopHeaders_keeps_lowercase_connection :
    isHopByHopName "connection" = true ∧
      Header.index (delHopHeaders [("connection", ["close"])]) "connection" = some ["close"] ∧
      Header.index (delHopHeaders [("connection", ["close"])]) "connection"
        ≠ withoutHopByHop [("connection", ["close"])] "connection" := by
  decide

/-- C3: `delHopHeaders` is idempotent, applying it twice gives the same header
map as applying it once. -/
theorem delHopHeaders_idempotent (h : Header) :
    delHopHeaders (delHopHeaders h) = delHopHeaders h := by
  rw [delHopHeaders_eq_filter (delHopHeaders h), delHopHeaders_eq_filter h, List.filter_filter]
  congr 1
  funext e
  exact Bool.and_self _

/-- C4, amended: after `appendHostToXForwardHeader(h, a)` the key
`X-Forwarded-For` holds exactly one value. When `h` held the values `v1..vk`
under it, `k ≥ 1`, the value is `v1, ..., vk, a`; when `h` had no such key it
is `a` alone. (A key present with an empty list is not covered.) -/
theorem appendHost_single_value (h : Header) (a : String)
    (hne : Header.index h "X-Forwarded-For" ≠ some []) :
    Header.index (appendHostToXForwardHeader h a) "X-Forwarded-For"
      = some [forwardedList ((Header.index h "X-Forwarded-For").getD []) a] := by
  cases hi : Header.index h "X-Forwarded-For" with
  | none =>
    rw [index_appendHost_of_none h a hi]
    rfl
  | some prior =>
    cases prior with
    | nil => exact absurd hi hne
    | cons v vs =>
      rw [index_appendHost_of_some h a (v :: vs) hi, join_append_eq_forwardedList]
      rfl

/-- C4, witness: the earlier value `1.2.3.4` and the client host `5.6.7.8`
give the single value `1.2.3.4, 5.6.7.8`. -/
theorem appendHost_single_value_witness :
    Header.index (appendHostToXForwardHeader [("X-Forwarded-For", ["1.2.3.4"])] "5.6.7.8")
        "X-Forwarded-For" = some ["1.2.3.4, 5.6.7.8"] :=
  (appendHost_single_value [("X-Forwarded-For", ["1.2.3.4"])] "5.6.7.8" (by decide)).trans
    (by decide)

/-- C4, counterexample: with the key present and its value list empty the
header does not become the address alone, it becomes `", "` followed by the
address. -/
theorem appendHost_empty_list_keeps_separator :
    Header.index [("X-Forwarded-For", [])] "X-Forwarded-For" = some [] ∧
      Header.index (appendHostToXForwardHeader [("X-Forwarded-For", [])] "5.6.7.8")
        "X-Forwarded-For" = some [", 5.6.7.8"] ∧
      Header.index (appendHostToXForwardHeader [("X-Forwarded-For", [])] "5.6.7.8")
        "X-Forwarded-For" ≠ some ["5.6.7.8"] := by
  decide

/-- C5: starting from a header map without the key `X-Forwarded-For` and
applying `appendHostToXForwardHeader` with the comma-free addresses
`a1, ..., aN` in turn, `N ≥ 1`, leaves a single value under the key, and that
value split on `", "` is the list `[a1, ..., aN]`. -/
theorem forwardedFor_after_hops (h : Header)
    (hno : Header.index h "X-Forwarded-For" = none) (addrs : List String)
    (hne : addrs ≠ []) (hcf : ∀ a ∈ addrs, commaFree a = true) :
    ∃ v, Header.index (addrs.foldl appendHostToXForwardHeader h) "X-Forwarded-For" = some [v]
      ∧ splitCommaSpace v = addrs := by
  cases addrs with
  | nil => exact absurd rfl hne
  | cons a1 rest =>
    refine ⟨rest.foldl (fun acc a => acc ++ ", " ++ a) a1, ?_, splitCommaSpace_foldl rest a1 hcf⟩
    rw [List.foldl_cons]
    exact index_foldl_appendHost rest _ a1 (index_appendHost_of_none h a1 hno)

/-- C5, witness: three hops through an initially empty header map. -/
theorem forwardedFor_after_hops_witness :
    ∃ v, Header.index
          (["10.0.0.1", "10.0.0.2", "10.0.0.3"].foldl appendHostToXForwardHeader [])
          "X-Forwarded-For" = some [v]
      ∧ splitCommaSpace v = ["10.0.0.1", "10.0.0.2", "10.0.0.3"] :=
  forwardedFor_after_hops [] (by decide) ["10.0.0.1", "10.0.0.2", "10.0.0.3"] (by decide)
    (by decide)

/-! ## Keys that survive sanitising -/

theorem goodKeys_delete (h : Header) (k : String) (hg : ∀ e ∈ h, goodKey e.1) :
    ∀ e ∈ Header.delete h k, goodKey e.1 := by
  intro e he
  exact hg e (List.mem_of_mem_filter he)

theorem goodKeys_assign (h : Header) (k : String) (vs : List String) (hk : goodKey k)
    (hg : ∀ e ∈ h, goodKey e.1) : ∀ e ∈ Header.assign h k vs, goodKey e.1 := by
  intro e he
  unfold Header.assign at he
  rcases List.mem_cons.mp he with h1 | h1
  · rw [h1]
    exact hk
  · exact goodKeys_delete h k hg e h1

theorem goodKeys_Add (h : Header) (k v : String) (hk : goodKey k)
    (hg : ∀ e ∈ h, goodKey e.1) : ∀ e ∈ Header.Add h k v, goodKey e.1 := by
  unfold Header.Add
  simp only [hk.1]
  exact goodKeys_assign h k _ hk hg

theorem goodKeys_foldl_Add (vs : List String) (h : Header) (k : String) (hk : goodKey k)
    (hg : ∀ e ∈ h, goodKey e.1) :
    ∀ e ∈ vs.foldl (fun d1 v => Header.Add d1 k v) h, goodKey e.1 := by
  induction vs generalizing h with
  | nil => simpa using hg
  | cons v vs ih =>
    rw [List.foldl_cons]
    exact ih _ (goodKeys_Add h k v hk hg)

theorem goodKeys_copyHeader (src dst : Header) (hs : ∀ e ∈ src, goodKey e.1)
    (hd : ∀ e ∈ dst, goodKey e.1) : ∀ e ∈ copyHeader dst src, goodKey e.1 := by
  unfold copyHeader
  induction src generalizing dst with
  | nil => simpa using hd
  | cons e src ih =>
    rw [List.foldl_cons]
    refine ih _ (fun x hx => hs x (List.mem_cons_of_mem e hx)) ?_
    exact goodKeys_foldl_Add e.2 dst e.1 (hs e (List.mem_cons_self e src)) hd

theorem goodKeys_delHopHeaders (h : Header) (hc : canonicalKeys h = true) :
    ∀ e ∈ delHopHeaders h, goodKey e.1 := by
  intro e he
  rw [delHopHeaders_eq_filter, List.mem_filter] at he
  have hcan := canonical_of_mem h hc e he.1
  refine ⟨hcan, ?_⟩
  cases hm : isHopByHopName e.1 with
  | false => rfl
  | true =>
    have hmem := mem_hopHeaders_of_canonical e.1 hm hcan
    have hnot : ¬ e.1 ∈ hopHeaders := by simpa using he.2
    exact absurd hmem hnot

theorem canonicalKeys_appendHost (h : Header) (a : String) (hc : canonicalKeys h = true) :
    canonicalKeys (appendHostToXForwardHeader h a) = true := by
  unfold canonicalKeys
  rw [List.all_eq_true]
  intro e he
  unfold appendHostToXForwardHeader Header.Set Header.assign at he
  rw [canon_XForwardedFor] at he
  rcases List.mem_cons.mp he with h1 | h1
  · rw [h1]
    show (CanonicalMIMEHeaderKey "X-Forwarded-For" == "X-Forwarded-For") = true
    rw [canon_XForwardedFor]
    simp
  · have := canonical_of_mem h hc e (List.mem_of_mem_filter h1)
    simpa using this

theorem hasHopByHop_of_goodKeys (h : Header) (hg : ∀ e ∈ h, goodKey e.1) :
    hasHopByHop h = false := by
  unfold hasHopByHop
  rw [List.any_eq_false]
  intro e he
  rw [(hg e he).2]
  simp

/-! ## Claims on `connect` -/

theorem http_Error_trace (w : World) (error : String) (code : Nat) :
    (http.Error w error code).trace
      = w.trace ++ [.writeHeader code (http.errorHeader w.header), .write (error ++ "\n")] := by
  simp [http.Error, World.WriteHeader, World.emit]

theorem http_Error_header (w : World) (error : String) (code : Nat) :
    (http.Error w error code).header = http.errorHeader w.header := rfl

/-- C6: when `dialer.Dial` returns an error, `connect` writes the status 503
and a body that contains `dial error`, writes no 200, does not hijack the
inbound connection and starts no transfer. -/
theorem connect_dial_error (dialer : String → String → Except String Conn) (w : World)
    (req : Request) (err : String) (hd : dialer "tcp" req.Host = .error err) :
    ∃ new, (connect dialer w req).trace = w.trace ++ new
      ∧ statusesWritten new = [503]
      ∧ bodyWritten new = "dial error" ++ (": " ++ err ++ "\n")
      ∧ Event.hijack ∉ new
      ∧ spawned new = []
      ∧ (∀ c d, Event.copy c d ∉ new) := by
  refine ⟨[.dial "tcp" req.Host, .log (logPrefix req ++ "dial error: " ++ err),
    .writeHeader 503 (http.errorHeader w.header), .write ("dial error: " ++ err ++ "\n")],
    ?_, ?_, ?_, ?_, ?_, ?_⟩
  · unfold connect
    simp only [hd]
    rw [http_Error_trace]
    simp [World.emit, http.StatusServiceUnavailable]
  · simp [statusesWritten]
  · have hlit : "dial error: " = "dial error" ++ ": " := by decide
    simp only [bodyWritten]
    rw [hlit]
    simp only [String.append_assoc, String.append_empty]
  · simp
  · simp [spawned]
  · simp

/-- C6, witness: a dialer that refuses every connection. -/
theorem connect_dial_error_witness :
    ∃ new, (connect (fun _ _ => .error "connection refused") (World.fresh none)
          sampleConnect).trace
        = (World.fresh none).trace ++ new
      ∧ statusesWritten new = [503]
      ∧ bodyWritten new = "dial error" ++ (": " ++ "connection refused" ++ "\n")
      ∧ Event.hijack ∉ new
      ∧ spawned new = []
      ∧ (∀ c d, Event.copy c d ∉ new) :=
  connect_dial_error (fun _ _ => .error "connection refused") (World.fresh none)
    sampleConnect
    "connection refused" rfl

/-- C7, the code at the failing input: the dial succeeds and the response
writer is no `http.Hijacker`. `WriteHeader(200)` comes first and the 500 of
`http.Error` second, so the status line the client receives is 200. -/
theorem connect_unhijackable_sends_200 (req : Request) (dst : Conn) :
    statusesWritten (connect (fun _ _ => .ok dst) (World.fresh none) req).trace = [200, 500]
      ∧ clientStatus (connect (fun _ _ => .ok dst) (World.fresh none) req).trace = some 200
      ∧ bodyWritten (connect (fun _ _ => .ok dst) (World.fresh none) req).trace
          = "hijacking not supported\n" := by
  unfold connect
  simp only [World.fresh, World.emit, World.WriteHeader, http_Error_trace]
  simp [statusesWritten, clientStatus, bodyWritten, http.StatusOK,
    http.StatusInternalServerError]

/-- C9, the code at the failing input: the dial succeeds and the response
writer is no `http.Hijacker`. `connect` returns without a `go` statement and
without a call of `Close`, so the outbound connection `dst` is never closed. -/
theorem connect_unhijackable_leaves_dst_open (req : Request) (dst : Conn) :
    spawned (connect (fun _ _ => .ok dst) (World.fresh none) req).trace = []
      ∧ closeCalls dst (connect (fun _ _ => .ok dst) (World.fresh none) req).trace = 0 := by
  unfold connect
  simp only [World.fresh, World.emit, World.WriteHeader, http_Error_trace]
  simp [spawned, closeCalls]

/-- The same on the other early return: `Hijack()` fails, `connect` returns
without a `go` statement and without a call of `Close`. -/
theorem connect_hijack_error_leaves_dst_open (req : Request) (dst : Conn) (err : String) :
    spawned (connect (fun _ _ => .ok dst) (World.fresh (some (.error err))) req).trace = []
      ∧ closeCalls dst
          (connect (fun _ _ => .ok dst) (World.fresh (some (.error err))) req).trace = 0 := by
  unfold connect
  simp only [World.fresh, World.emit, World.WriteHeader, http_Error_trace]
  simp [spawned, closeCalls]

/-- The sibling path: with the tunnel established `connect` starts
`transfer(dst, src)` and `transfer(src, dst)`, and in every order of their
events `Close` is called on each of the two connections, once by each
transfer. -/
theorem connect_tunnel_closes_both (req : Request) (dst src : Conn) (hne : dst ≠ src)
    (t : List Event) (ht : t.Perm (transfer dst src ++ transfer src dst)) :
    spawned (connect (fun _ _ => .ok dst) (World.fresh (some (.ok src))) req).trace
        = [(dst, src), (src, dst)]
      ∧ closeCalls dst t = 2 ∧ closeCalls src t = 2 := by
  refine ⟨?_, ?_, ?_⟩
  · unfold connect
    simp only [World.fresh, World.emit, World.WriteHeader]
    simp [spawned]
  · unfold closeCalls
    rw [ht.count_eq]
    simp [transfer, List.count_cons, hne, Ne.symm hne]
  · unfold closeCalls
    rw [ht.count_eq]
    simp [transfer, List.count_cons, hne, Ne.symm hne]

/-- The calls `connect` makes when the dial succeeds and `Hijack()` returns
an error: the dial, `WriteHeader(200)`, `Hijack()`, the log line, and then
the `WriteHeader(503)` and the body of `http.Error`. -/
theorem connect_trace_of_hijack_error (dialer : String → String → Except String Conn)
    (w : World) (req : Request) (dst : Conn) (err : String)
    (hd : dialer "tcp" req.Host = .ok dst) (hh : w.hijacker = some (.error err)) :
    (connect dialer w req).trace = w.trace ++
        [.dial "tcp" req.Host, .writeHeader 200 w.header, .hijack,
         .log (logPrefix req ++ "hijack error: " ++ err),
         .writeHeader 503 (http.errorHeader w.header),
         .write ("hijack error: " ++ err ++ "\n")]
      ∧ (connect dialer w req).header = http.errorHeader w.header := by
  unfold connect
  simp only [hd, World.emit, World.WriteHeader, hh, http_Error_trace, http_Error_header]
  simp [http.StatusOK, http.StatusServiceUnavailable]

/-- C10, the code at the failing input: the dial succeeds and `Hijack()`
returns an error after the 200 was written. `connect` does not only log and
return: through `http.Error` it passes a second status, 503, and the body
`hijack error: ` with the error and a newline to the response writer. The
status line the client receives stays the 200 written first. -/
theorem connect_hijack_error_writes_after_200 (req : Request) (dst : Conn) (err : String) :
    statusesWritten
        (connect (fun _ _ => .ok dst) (World.fresh (some (.error err))) req).trace = [200, 503]
      ∧ clientStatus
        (connect (fun _ _ => .ok dst) (World.fresh (some (.error err))) req).trace = some 200
      ∧ bodyWritten
        (connect (fun _ _ => .ok dst) (World.fresh (some (.error err))) req).trace
          = "hijack error: " ++ err ++ "\n"
      ∧ (connect (fun _ _ => .ok dst) (World.fresh (some (.error err))) req).header
          = http.errorHeader [] := by
  unfold connect
  simp only [World.fresh, World.emit, World.WriteHeader, http_Error_trace, http_Error_header]
  simp [statusesWritten, clientStatus, bodyWritten, http.StatusOK,
    http.StatusServiceUnavailable]

/-! ## Claims on `proxyHTTP` -/

/-- The request `proxyHTTP.forward` hands to the transport. -/
theorem forward_trace_error (transport : Request → Except String Response) (w : World)
    (req : Request) (err : String)
    (ht : transport { req with Header := delHopHeaders req.Header } = .error err) :
    (proxyHTTP.forward transport w req).trace = w.trace ++
      [.roundTrip { req with Header := delHopHeaders req.Header },
       .log (logPrefix { req with Header := delHopHeaders req.Header }
          ++ "error sending request: " ++ err),
       .writeHeader 500 (http.errorHeader w.header),
       .write ("proxy failed: " ++ err ++ "\n")] := by
  unfold proxyHTTP.forward
  simp only [ht, http_Error_trace, World.emit]
  simp [http.StatusInternalServerError]

theorem forward_trace_ok (transport : Request → Except String Response) (w : World)
    (req : Request) (resp : Response)
    (ht : transport { req with Header := delHopHeaders req.Header } = .ok resp) :
    (proxyHTTP.forward transport w req).trace = w.trace ++
        [.roundTrip { req with Header := delHopHeaders req.Header },
         .log (logPrefix { req with Header := delHopHeaders req.Header } ++ resp.Status),
         .writeHeader resp.StatusCode (copyHeader w.header (delHopHeaders resp.Header)),
         .write resp.Body, .bodyClose]
      ∧ (proxyHTTP.forward transport w req).header
        = copyHeader w.header (delHopHeaders resp.Header) := by
  unfold proxyHTTP.forward
  simp only [ht, World.emit, World.WriteHeader]
  simp

/-- What `proxyHTTP.forward` writes, by the outcome of the round trip. -/
theorem forward_statuses (transport : Request → Except String Response) (w : World)
    (req : Request) (hw : w.trace = []) :
    ∃ r, r.Header = delHopHeaders req.Header
      ∧ roundTrips (proxyHTTP.forward transport w req).trace = [r]
      ∧ (∀ err, transport r = .error err →
          statusesWritten (proxyHTTP.forward transport w req).trace = [500]
          ∧ bodyWritten (proxyHTTP.forward transport w req).trace
              = "proxy failed" ++ (": " ++ err ++ "\n"))
      ∧ (∀ resp, transport r = .ok resp →
          statusesWritten (proxyHTTP.forward transport w req).trace = [resp.StatusCode]
          ∧ bodyWritten (proxyHTTP.forward transport w req).trace = resp.Body
          ∧ headersWritten (proxyHTTP.forward transport w req).trace
              = [copyHeader w.header (delHopHeaders resp.Header)]
          ∧ (proxyHTTP.forward transport w req).header
              = copyHeader w.header (delHopHeaders resp.Header)) := by
  refine ⟨{ req with Header := delHopHeaders req.Header }, rfl, ?_, ?_, ?_⟩
  · cases ht : transport { req with Header := delHopHeaders req.Header } with
    | error err => rw [forward_trace_error transport w req err ht, hw]; simp [roundTrips]
    | ok resp => rw [(forward_trace_ok transport w req resp ht).1, hw]; simp [roundTrips]
  · intro err ht
    rw [forward_trace_error transport w req err ht, hw]
    have hlit : "proxy failed: " = "proxy failed" ++ ": " := by decide
    refine ⟨by simp [statusesWritten], ?_⟩
    simp only [List.nil_append, bodyWritten]
    rw [hlit]
    simp only [String.append_assoc, String.append_empty]
  · intro resp ht
    rw [(forward_trace_ok transport w req resp ht).1, (forward_trace_ok transport w req resp ht).2,
      hw]
    simp [statusesWritten, bodyWritten, headersWritten]

/-- C8: `proxyHTTP` on a response writer nothing was written to. With the
flag set and a `req.RemoteAddr` that `net.SplitHostPort` rejects it writes
500 and the body `invalid remote address` and calls `RoundTrip` not at all.
Otherwise it calls `RoundTrip` once; on an error it writes 500 and a body
that begins `proxy failed`; on a response it writes the status code of the
response and its body. -/
theorem proxyHTTP_statuses (flag : Bool) (transport : Request → Except String Response)
    (w : World) (req : Request) (hw : w.trace = []) :
    (flag = true → ∀ err, net.SplitHostPort req.RemoteAddr = .error err →
        statusesWritten (proxyHTTP flag transport w req).trace = [500]
        ∧ bodyWritten (proxyHTTP flag transport w req).trace = "invalid remote address" ++ "\n"
        ∧ roundTrips (proxyHTTP flag transport w req).trace = [])
    ∧ ((flag = false ∨ ∃ hp, net.SplitHostPort req.RemoteAddr = .ok hp) →
        ∃ r, roundTrips (proxyHTTP flag transport w req).trace = [r]
          ∧ (∀ err, transport r = .error err →
              statusesWritten (proxyHTTP flag transport w req).trace = [500]
              ∧ bodyWritten (proxyHTTP flag transport w req).trace
                  = "proxy failed" ++ (": " ++ err ++ "\n"))
          ∧ (∀ resp, transport r = .ok resp →
              statusesWritten (proxyHTTP flag transport w req).trace = [resp.StatusCode]
              ∧ bodyWritten (proxyHTTP flag transport w req).trace = resp.Body)) := by
  constructor
  · intro hf err hs
    unfold proxyHTTP
    simp only [hf, if_true, hs, http_Error_trace, World.emit, hw]
    simp [statusesWritten, bodyWritten, roundTrips, http.StatusInternalServerError]
  · intro hcase
    have key : ∃ req1, proxyHTTP flag transport w req = proxyHTTP.forward transport w req1 := by
      unfold proxyHTTP
      cases flag with
      | false => exact ⟨req, by simp⟩
      | true =>
        rcases hcase with hf | ⟨hp, hs⟩
        · exact absurd hf (by decide)
        · obtain ⟨ip, port⟩ := hp
          exact ⟨{ req with Header := appendHostToXForwardHeader req.Header ip },
            by simp only [if_true, hs]⟩
    obtain ⟨req1, hreq1⟩ := key
    rw [hreq1]
    obtain ⟨r, _, h1, h2, h3⟩ := forward_statuses transport w req1 hw
    exact ⟨r, h1, h2, fun resp ht => ⟨(h3 resp ht).1, (h3 resp ht).2.1⟩⟩

/-- C8, witness: the flag is set and the peer address `5.6.7.8` has no port. -/
theorem proxyHTTP_statuses_witness :
    statusesWritten (proxyHTTP true notFound (World.fresh none) sampleRequestNoPort).trace = [500]
      ∧ bodyWritten (proxyHTTP true notFound (World.fresh none) sampleRequestNoPort).trace
          = "invalid remote address" ++ "\n"
      ∧ roundTrips (proxyHTTP true notFound (World.fresh none) sampleRequestNoPort).trace = [] :=
  (proxyHTTP_statuses true notFound (World.fresh none) sampleRequestNoPort rfl).1 rfl
    (addrError "5.6.7.8" "missing port in address") rfl

/-- The two ways through `proxyHTTP`: the early 500, or the second part run
on a request whose header keys are canonical when those of `req` are. -/
theorem proxyHTTP_cases (flag : Bool) (transport : Request → Except String Response)
    (w : World) (req : Request) (hreq : canonicalKeys req.Header = true) :
    (∃ line, proxyHTTP flag transport w req
        = http.Error (w.emit (.log line)) "invalid remote address" 500)
    ∨ (∃ req1, canonicalKeys req1.Header = true
        ∧ proxyHTTP flag transport w req = proxyHTTP.forward transport w req1) := by
  unfold proxyHTTP
  cases flag with
  | false => exact Or.inr ⟨req, hreq, by simp⟩
  | true =>
    cases hs : net.SplitHostPort req.RemoteAddr with
    | error err => exact Or.inl ⟨_, by simp only [if_true]; rfl⟩
    | ok hp =>
      obtain ⟨ip, port⟩ := hp
      exact Or.inr ⟨{ req with Header := appendHostToXForwardHeader req.Header ip },
        canonicalKeys_appendHost req.Header ip hreq, by simp only [if_true]⟩

/-- On header maps with canonical keys: every request `proxyHTTP` hands to
the transport carries no key that matches a hop-by-hop name, and after a
round trip that succeeds the header set written to the client carries none
either. -/
theorem no_hop_by_hop_of_canonicalKeys (flag : Bool) (transport : Request → Except String Response)
    (hijacker : Option (Except String Conn)) (req : Request)
    (hreq : canonicalKeys req.Header = true)
    (hresp : ∀ r resp, transport r = .ok resp → canonicalKeys resp.Header = true) :
    ∀ r ∈ roundTrips (proxyHTTP flag transport (World.fresh hijacker) req).trace,
      hasHopByHop r.Header = false
      ∧ ∀ resp, transport r = .ok resp →
          headersWritten (proxyHTTP flag transport (World.fresh hijacker) req).trace
            = [(proxyHTTP flag transport (World.fresh hijacker) req).header]
          ∧ (proxyHTTP flag transport (World.fresh hijacker) req).header
            = copyHeader [] (delHopHeaders resp.Header)
          ∧ hasHopByHop (proxyHTTP flag transport (World.fresh hijacker) req).header = false := by
  intro r hr
  rcases proxyHTTP_cases flag transport (World.fresh hijacker) req hreq with ⟨line, he⟩ | ⟨req1, hc1, hf⟩
  · rw [he, http_Error_trace] at hr
    simp [World.emit, World.fresh, roundTrips] at hr
  · rw [hf] at hr ⊢
    obtain ⟨r0, hr0, h1, _, h3⟩ := forward_statuses transport (World.fresh hijacker) req1 rfl
    rw [h1] at hr
    have hrr : r = r0 := by simpa using hr
    subst hrr
    refine ⟨?_, ?_⟩
    · rw [hr0]
      exact hasHopByHop_of_goodKeys _ (goodKeys_delHopHeaders req1.Header hc1)
    · intro resp ht
      obtain ⟨_, _, h4, h5⟩ := h3 resp ht
      refine ⟨by rw [h4, h5], h5, ?_⟩
      rw [h5]
      refine hasHopByHop_of_goodKeys _ (goodKeys_copyHeader _ _ ?_ ?_)
      · exact goodKeys_delHopHeaders resp.Header (hresp r resp ht)
      · intro e he
        exact absurd he (List.not_mem_nil e)

/-! ## Header maps as the parsers build them -/

theorem canonical_Add (h : Header) (k v : String)
    (hc : ∀ e ∈ h, CanonicalMIMEHeaderKey e.1 = e.1) :
    ∀ e ∈ Header.Add h k v, CanonicalMIMEHeaderKey e.1 = e.1 := by
  intro e he
  unfold Header.Add Header.assign at he
  rcases List.mem_cons.mp he with h1 | h1
  · rw [h1]
    exact CanonicalMIMEHeaderKey_idem k
  · exact hc e (List.mem_of_mem_filter h1)

theorem canonical_foldl_Add (fields : List (String × String)) (h : Header)
    (hc : ∀ e ∈ h, CanonicalMIMEHeaderKey e.1 = e.1) :
    ∀ e ∈ fields.foldl (fun h f => Header.Add h f.1 f.2) h,
      CanonicalMIMEHeaderKey e.1 = e.1 := by
  induction fields generalizing h with
  | nil => simpa using hc
  | cons f fields ih =>
    rw [List.foldl_cons]
    exact ih _ (canonical_Add h f.1 f.2 hc)

/-- Every key of a header map built from the fields of a message is in
canonical form, however the fields spell their names. -/
theorem canonicalKeys_readHeader (fields : List (String × String)) :
    canonicalKeys (readHeader fields) = true := by
  unfold canonicalKeys
  rw [List.all_eq_true]
  intro e he
  have := canonical_foldl_Add fields [] (fun x hx => absurd hx (List.not_mem_nil x)) e he
  simpa using this

theorem canonicalKeys_of_roundTripOver (target : Request → Except String WireResponse)
    (r : Request) (resp : Response) (h : roundTripOver target r = .ok resp) :
    canonicalKeys resp.Header = true := by
  unfold roundTripOver at h
  cases ht : target r with
  | error err =>
    rw [ht] at h
    exact absurd h (by simp)
  | ok m =>
    rw [ht] at h
    have hr : resp = readResponse m := (Except.ok.inj h).symm
    rw [hr]
    exact canonicalKeys_readHeader m.Fields

/-- C1: for every request handled by `proxyHTTP`, with forwarded-address
injection on or off, whatever header fields the inbound request and the
response of the target carry: the header set handed to `transport.RoundTrip`
holds no key that matches a hop-by-hop name, and when the round trip succeeds
the header set written to the client, the initially empty `w.Header()` after
`copyHeader`, holds none either. The header maps are the ones `net/http`
builds from the fields of the two messages. -/
theorem proxyHTTP_no_hop_by_hop (flag : Bool) (target : Request → Except String WireResponse)
    (hijacker : Option (Except String Conn)) (method url host remoteAddr : String)
    (fields : List (String × String)) :
    ∀ r ∈ roundTrips (proxyHTTP flag (roundTripOver target) (World.fresh hijacker)
          ⟨method, url, host, remoteAddr, readHeader fields⟩).trace,
      hasHopByHop r.Header = false
      ∧ ∀ resp, roundTripOver target r = .ok resp →
          headersWritten (proxyHTTP flag (roundTripOver target) (World.fresh hijacker)
              ⟨method, url, host, remoteAddr, readHeader fields⟩).trace
            = [(proxyHTTP flag (roundTripOver target) (World.fresh hijacker)
              ⟨method, url, host, remoteAddr, readHeader fields⟩).header]
          ∧ (proxyHTTP flag (roundTripOver target) (World.fresh hijacker)
              ⟨method, url, host, remoteAddr, readHeader fields⟩).header
            = copyHeader [] (delHopHeaders resp.Header)
          ∧ hasHopByHop (proxyHTTP flag (roundTripOver target) (World.fresh hijacker)
              ⟨method, url, host, remoteAddr, readHeader fields⟩).header = false :=
  no_hop_by_hop_of_canonicalKeys flag (roundTripOver target) hijacker
    ⟨method, url, host, remoteAddr, readHeader fields⟩ (canonicalKeys_readHeader fields)
    (canonicalKeys_of_roundTripOver target)

/-- C1, witness: the flag is set, the request arrives from `5.6.7.8:9999` with
the fields `x-forwarded-for`, `connection`, `TE` and `accept`, and the target
answers 404 with the fields `connection: close` and `Server: t`. The request
handed to `RoundTrip` keeps `Accept` and the merged `X-Forwarded-For`, the
client is sent `Server` alone. -/
theorem proxyHTTP_no_hop_by_hop_witness :
    hasHopByHop [("X-Forwarded-For", ["1.2.3.4, 5.6.7.8"]), ("Accept", ["text/html"])] = false
      ∧ headersWritten (proxyHTTP true (roundTripOver sampleTarget) (World.fresh none)
          ⟨"GET", "http://example.org/", "example.org", "5.6.7.8:9999",
            readHeader sampleFields⟩).trace
        = [(proxyHTTP true (roundTripOver sampleTarget) (World.fresh none)
          ⟨"GET", "http://example.org/", "example.org", "5.6.7.8:9999",
            readHeader sampleFields⟩).header]
      ∧ (proxyHTTP true (roundTripOver sampleTarget) (World.fresh none)
          ⟨"GET", "http://example.org/", "example.org", "5.6.7.8:9999",
            readHeader sampleFields⟩).header
        = copyHeader [] (delHopHeaders [("Server", ["t"]), ("Connection", ["close"])])
      ∧ hasHopByHop (proxyHTTP true (roundTripOver sampleTarget) (World.fresh none)
          ⟨"GET", "http://example.org/", "example.org", "5.6.7.8:9999",
            readHeader sampleFields⟩).header = false :=
  have h := proxyHTTP_no_hop_by_hop true sampleTarget none "GET" "http://example.org/"
    "example.org" "5.6.7.8:9999" sampleFields
    ⟨"GET", "http://example.org/", "example.org", "5.6.7.8:9999",
      [("X-Forwarded-For", ["1.2.3.4, 5.6.7.8"]), ("Accept", ["text/html"])]⟩ (by decide)
  ⟨h.1, h.2 ⟨"404 Not Found", 404, [("Server", ["t"]), ("Connection", ["close"])], "gone"⟩ rfl⟩

/-- The scenario of the specification, evaluated: the outbound request carries
`X-Forwarded-For: 1.2.3.4, 5.6.7.8` and no `Connection`, the client receives
404 with the header `Server` only and the body of the target. -/
theorem proxyHTTP_scenario :
    roundTrips (proxyHTTP true notFound (World.fresh none) sampleRequest).trace
        = [{ sampleRequest with Header := [("X-Forwarded-For", ["1.2.3.4, 5.6.7.8"])] }]
      ∧ statusesWritten (proxyHTTP true notFound (World.fresh none) sampleRequest).trace = [404]
      ∧ headersWritten (proxyHTTP true notFound (World.fresh none) sampleRequest).trace
        = [[("Server", ["t"])]]
      ∧ bodyWritten (proxyHTTP true notFound (World.fresh none) sampleRequest).trace = "gone"
      ∧ headersWritten (proxyHTTP false notFound (World.fresh none) sampleRequest).trace
        = [[("Server", ["t"])]] := by
  decide

end HttpProxy
